import Mathlib

/-!
Verification of the go-list-export tool (src/main.go).

The development shallowly embeds the Go source: the syntax nodes consumed by
the renderer become an inductive type, the pure formatting functions become
Lean functions, and Go panics become the value `none` of `Option`-returning
functions. Go library calls from outside the repository are modelled at their
boundary: `unicode.IsUpper` (the full Unicode uppercase table) is threaded as
an explicit parameter `u : Char → Bool`, and the filesystem read by the module
cache fallback becomes an explicit finite directory tree.
-/

namespace GoListExport

/-- Go syntax nodes (`ast.Expr`) as consumed by `formatType` in src/main.go.
A field list (`*ast.FieldList`) is embedded as a list of (names, type) pairs;
`none` in an `Option Expr` position stands for a nil sub-node, and an optional
field list stands for a possibly-nil `*ast.FieldList`. The `unsupported`
constructor stands for every node kind outside the enumerated variants and
carries the text of the Go debug form of the node. -/
inductive Expr where
  | ident (name : String)
  | selector (x : Expr) (sel : String)
  | star (x : Expr)
  | arrayType (len : Option Expr) (elt : Expr)
  | ellipsis (elt : Expr)
  | funcType (typeParams : Option (List (List String × Option Expr)))
      (params : List (List String × Option Expr))
      (results : Option (List (List String × Option Expr)))
  | mapType (key : Expr) (value : Expr)
  | chanType (dir : Nat) (value : Expr)
  | basicLit (value : String)
  | structType
  | interfaceType
  | unaryExpr (op : String) (x : Expr)
  | compositeLit (tp : Option Expr)
  | callExpr (fn : Expr)
  | binaryExpr (x : Expr) (op : String) (y : Expr)
  | funcLit (tp : Expr)
  | indexExpr (x : Expr) (index : Expr)
  | indexListExpr (x : Expr) (indices : List Expr)
  | parenExpr (x : Expr)
  | sliceExpr (x : Expr) (low : Option Expr) (high : Option Expr) (slice3 : Bool) (mx : Option Expr)
  | typeAssertExpr (x : Expr) (tp : Option Expr)
  | unsupported (debug : String)

/-- One entry of a Go `*ast.FieldList`: the names sharing one type node. -/
abbrev GoField := List String × Option Expr

/-- The inner loop of `formatFields` (src/main.go lines 204-210): each name is
followed by a comma when it is not the last one, and by a space always. -/
def formatNames : List String → String
  | [] => ""
  | [n] => n ++ " "
  | n :: rest => n ++ ", " ++ formatNames rest

mutual

/-- `formatType` (src/main.go lines 219-297) restricted to non-nil nodes; the
Go nil case is split off into `formatTypeOpt`. The Go source reads `t.Len`,
`t.Low`, `t.High`, `t.Max`, `t.Type` through the same nil-tolerant entry
point, which is `formatTypeOpt` here. -/
def formatType : Expr → String
  | .ident n => n
  | .selector x sel => formatType x ++ "." ++ sel
  | .star x => "*" ++ formatType x
  | .arrayType len elt => "[" ++ formatTypeOpt len ++ "]" ++ formatType elt
  | .ellipsis elt => "..." ++ formatType elt
  | .funcType _ ps rs => "func(" ++ formatFields ps ++ ")" ++ formatFuncResults rs
  | .mapType k v => "map[" ++ formatType k ++ "]" ++ formatType v
  | .chanType dir v =>
      (if dir = 1 then "<-chan" else if dir = 2 then "chan<-" else if dir = 3 then "chan" else "")
        ++ " " ++ formatType v
  | .basicLit v => v
  | .structType => "struct\x7b\x7d"
  | .interfaceType => "interface\x7b\x7d"
  | .unaryExpr op x => op ++ formatType x
  | .compositeLit tp => formatTypeOpt tp ++ "\x7b\x7d"
  | .callExpr fn => formatType fn ++ "()"
  | .binaryExpr x op y => formatType x ++ " " ++ op ++ " " ++ formatType y
  | .funcLit tp => formatType tp
  | .indexExpr x i => formatType x ++ "[" ++ formatType i ++ "]"
  | .indexListExpr x idxs =>
      formatType x ++ "[" ++ String.intercalate ", " (formatTypeList idxs) ++ "]"
  | .parenExpr x => "(" ++ formatType x ++ ")"
  | .sliceExpr x lo hi s3 mx =>
      formatType x ++ "[" ++ formatTypeOpt lo ++ ":" ++ formatTypeOpt hi
        ++ (if s3 then ":" else "") ++ formatTypeOpt mx ++ "]"
  | .typeAssertExpr x tp => formatType x ++ ".(" ++ formatTypeOpt tp ++ ")"
  | .unsupported dbg => "unsupported type " ++ dbg

/-- The `case nil: return ""` arm of the Go `formatType`. -/
def formatTypeOpt : Option Expr → String
  | none => ""
  | some e => formatType e

/-- The loop over `t.Indices` in the `IndexListExpr` case. -/
def formatTypeList : List Expr → List String
  | [] => []
  | e :: rest => formatType e :: formatTypeList rest

/-- `formatFields` (src/main.go lines 201-217): fields are joined by a comma
and a space; the last field gets no separator. -/
def formatFields : List GoField → String
  | [] => ""
  | [f] => formatField f
  | f :: rest => formatField f ++ ", " ++ formatFields rest

/-- One iteration of the outer `formatFields` loop: the names then the type. -/
def formatField : GoField → String
  | (names, tp) => formatNames names ++ formatTypeOpt tp

/-- `formatFuncResults` (src/main.go lines 299-313). `needPar` is the Go
condition `len(fields.List) > 1 || (len(fields.List) == 1 &&
len(fields.List[0].Names) > 0)`; the index into `fields.List[0]` is guarded
by the length test, embedded with `headD`. -/
def formatFuncResults : Option (List GoField) → String
  | none => ""
  | some fields =>
      let needPar : Bool :=
        decide (1 < fields.length) ||
          (decide (fields.length = 1) && decide (0 < (fields.headD ([], none)).1.length))
      " " ++ (if needPar then "(" else "") ++ formatFields fields
        ++ (if needPar then ")" else "")

end

/-- The rune sequence of a name after stripping one leading pointer marker;
the character `isUpper0` classifies is the head of this list, and `[]` means
the Go rune indexing would be out of range. -/
def stripStar (l : List Char) : List Char :=
  if l.head? = some '*' then l.tail else l

/-- `isUpper0` (src/main.go lines 315-320). The parameter `u` stands for the
Go standard library `unicode.IsUpper` (full Unicode case rules, outside this
repository). `strings.HasPrefix(s, "*")` is the first rune being a star;
`[]rune(s)[1]` and `[]rune(s)[0]` are rune indexing, which panics when the
index is out of range: `none` is that panic. -/
def isUpper0 (u : Char → Bool) (s : String) : Option Bool :=
  if s.data.head? = some '*' then (s.data.get? 1).map u
  else (s.data.get? 0).map u

/-- A Go `*ast.FuncDecl` as read by `exported` and `formatFuncDecl`: the
receiver field list (nil when the declaration is a plain function), the name,
and the `*ast.FuncType` pieces the formatter reads. -/
structure FuncDecl where
  recv : Option (List GoField)
  name : String
  typeParams : Option (List GoField)
  params : List GoField
  results : Option (List GoField)

/-- Stands in for the Go `%#v` debug rendering of one `*ast.Field` in the
diagnostic messages; the exact text is produced by the Go fmt library outside
this repository, modelled as a structural rendering of the field. -/
def debugField (f : GoField) : String :=
  "ast.Field(" ++ String.intercalate ", " f.1 ++ " : " ++ formatTypeOpt f.2 ++ ")"

/-- Stands in for the Go `%#v` debug rendering of a receiver `*ast.FieldList`
in the diagnostic messages. -/
def debugFieldList (l : List GoField) : String :=
  "ast.FieldList(" ++ String.intercalate "; " (l.map debugField) ++ ")"

/-- The tail of `formatFuncDecl` common to functions and methods: name, then
the optional bracketed type parameter list, the parenthesised parameters and
the result clause (src/main.go lines 192-198). -/
def funcDeclTail (d : FuncDecl) : String :=
  d.name
    ++ (match d.typeParams with
        | some tps => "[" ++ formatFields tps ++ "]"
        | none => "")
    ++ "(" ++ formatFields d.params ++ ")"
    ++ formatFuncResults d.results

/-- `formatFuncDecl` (src/main.go lines 177-199). A receiver list that does
not have exactly one field yields the strange-receiver diagnostic; a single
receiver field with no names yields the empty string (interface method
specification); with more than one name it yields the strange-receiver-field
diagnostic; otherwise the receiver is rendered before the common tail. -/
def formatFuncDecl (d : FuncDecl) : String :=
  match d.recv with
  | none => "func " ++ funcDeclTail d
  | some [field] =>
      match field.1 with
      | [] => ""
      | [n] => "func " ++ "(" ++ n ++ " " ++ formatTypeOpt field.2 ++ ") " ++ funcDeclTail d
      | _ => "strange receiver field for " ++ d.name ++ ": " ++ debugField field
  | some l => "strange receiver for " ++ d.name ++ ": " ++ debugFieldList l

/-- `exported` (src/main.go lines 322-331). A receiver list without exactly
one field panics (`none`). Otherwise the Go conjunction
`isUpper0(formatType(field.Type)) && isUpper0(decl.Name.Name)` short-circuits:
the name is only classified when the receiver type passed. -/
def exported (u : Char → Bool) (d : FuncDecl) : Option Bool :=
  match d.recv with
  | none => isUpper0 u d.name
  | some [field] =>
      match isUpper0 u (formatTypeOpt field.2) with
      | none => none
      | some tb => if tb then isUpper0 u d.name else some false
  | some _ => none

/-- The token of a Go `*ast.GenDecl` as inspected by the switch in
`formatGenDecl`: TYPE, VAR, CONST, or any other token (IMPORT). -/
inductive GenTok where
  | typeTok
  | varTok
  | constTok
  | importTok

/-- One `ast.Spec` of a `*ast.GenDecl`: a `*ast.TypeSpec` (name and
underlying type), a `*ast.ValueSpec` (names, optional shared type, parallel
initializer list), or any other spec kind, on which the type assertions of
`formatGenDecl` fail. -/
inductive GoSpec where
  | typeSpec (name : String) (tp : Expr)
  | valueSpec (names : List String) (tp : Option Expr) (values : List Expr)
  | otherSpec

/-- The loop body of the TYPE arm of `formatGenDecl` (src/main.go lines
138-143): specs that are not type specs are skipped by the failing type
assertion; eligible names contribute one `type` line; `isUpper0` may panic. -/
def typeSpecLines (u : Char → Bool) : List GoSpec → Option (List String)
  | [] => some []
  | .typeSpec name tp :: rest =>
      match isUpper0 u name with
      | none => none
      | some up =>
          match typeSpecLines u rest with
          | none => none
          | some tail =>
              some (if up then ("type " ++ name ++ " " ++ formatType tp) :: tail else tail)
  | _ :: rest => typeSpecLines u rest

/-- One line of the VAR/CONST arm for the name at index `i` (src/main.go
lines 160-164): the tag word, the name and the shared type text, then an
initializer clause exactly when the group supplies more than `i`
initializers. -/
def valueLine (key name typ : String) (values : List Expr) (i : Nat) : String :=
  let s := key ++ " " ++ name ++ " " ++ typ
  if values.length > i then s ++ "= " ++ formatTypeOpt (values.get? i) else s

/-- The inner loop of the VAR/CONST arm of `formatGenDecl` over the names of
one value spec, with their index (src/main.go lines 158-167). -/
def valueSpecAux (u : Char → Bool) (key typ : String) (values : List Expr) :
    Nat → List String → Option (List String)
  | _, [] => some []
  | i, name :: rest =>
      match isUpper0 u name with
      | none => none
      | some up =>
          match valueSpecAux u key typ values (i + 1) rest with
          | none => none
          | some tail =>
              some (if up then valueLine key name typ values i :: tail else tail)

/-- The loop of the VAR/CONST arm of `formatGenDecl` over the specs
(src/main.go lines 149-168): the shared type text gets a trailing space when
non-empty; specs that are not value specs are skipped. -/
def valueSpecLines (u : Char → Bool) (key : String) : List GoSpec → Option (List String)
  | [] => some []
  | .valueSpec names tp values :: rest =>
      let typ0 := formatTypeOpt tp
      let typ := if typ0 ≠ "" then typ0 ++ " " else typ0
      match valueSpecAux u key typ values 0 names with
      | none => none
      | some lines =>
          match valueSpecLines u key rest with
          | none => none
          | some tail => some (lines ++ tail)
  | _ :: rest => valueSpecLines u key rest

/-- A Go `*ast.GenDecl`: its token and its spec list. -/
structure GenDecl where
  tok : GenTok
  specs : List GoSpec

/-- `formatGenDecl` (src/main.go lines 134-171): the collected lines joined
by newlines; a token outside TYPE/VAR/CONST leaves the collection empty. -/
def formatGenDecl (u : Char → Bool) (d : GenDecl) : Option String :=
  match d.tok with
  | .typeTok =>
      match typeSpecLines u d.specs with
      | none => none
      | some res => some (String.intercalate "\n" res)
  | .varTok =>
      match valueSpecLines u "var" d.specs with
      | none => none
      | some res => some (String.intercalate "\n" res)
  | .constTok =>
      match valueSpecLines u "const" d.specs with
      | none => none
      | some res => some (String.intercalate "\n" res)
  | .importTok => some ""

/-- A top-level Go declaration as inspected by the switch in
`printGoFileExport`: a function declaration, a general declaration, or any
other kind (`*ast.BadDecl`), which the switch skips. -/
inductive Decl where
  | funcDecl (d : FuncDecl)
  | genDecl (d : GenDecl)
  | badDecl

/-- The contribution of one declaration to the `res` collection of
`printGoFileExport` (src/main.go lines 112-122): an exported function
declaration contributes its rendering unconditionally (no emptiness check);
a general declaration contributes its rendering only when non-empty. `none`
is a panic escaping from `exported` or `formatGenDecl`. -/
def processDecl (u : Char → Bool) : Decl → Option (List String)
  | .funcDecl d =>
      match exported u d with
      | none => none
      | some e => some (if e then [formatFuncDecl d] else [])
  | .genDecl g =>
      match formatGenDecl u g with
      | none => none
      | some s => some (if s ≠ "" then [s] else [])
  | .badDecl => some []

/-- The `res` collection loop of `printGoFileExport` over the declarations of
one file (src/main.go lines 110-123); a panic anywhere aborts the run. -/
def collectRes (u : Char → Bool) : List Decl → Option (List String)
  | [] => some []
  | d :: rest =>
      match processDecl u d with
      | none => none
      | some h =>
          match collectRes u rest with
          | none => none
          | some t => some (h ++ t)

/-- `filepath.Base` for slash-separated paths as used by `printFileName`
(src/main.go lines 173-175): the last slash-separated component, computed by
scanning the runes and restarting at every slash. -/
def baseName (p : String) : String :=
  ⟨p.data.foldl (fun acc c => if c = '/' then [] else acc ++ [c]) []⟩

/-- `printGoFileExport` (src/main.go lines 109-132), returning the list of
printed lines: nothing when the collection is empty, otherwise the file-name
header, each collected entry, and one trailing blank line. `none` is a
panic aborting the run. -/
def printGoFileExport (u : Char → Bool) (fpath : String) (decls : List Decl) :
    Option (List String) :=
  match collectRes u decls with
  | none => none
  | some res =>
      if res = [] then some []
      else some (("// " ++ baseName fpath ++ ":") :: res ++ [""])

/-- A finite filesystem tree as read by the module cache fallback search:
a directory with named children, or a non-directory entry. -/
inductive FSNode where
  | dir (children : List (String × FSNode))
  | file

/-- Whether an entry is a directory (`f.IsDir()`). -/
def FSNode.isDir : FSNode → Bool
  | .dir _ => true
  | .file => false

/-- The inner loop of `searchPackagePathFromGoModCache` (src/main.go lines
57-62): the first directory child whose name equals the segment exactly or
begins with the segment followed by an at sign. `strings.HasPrefix` compares
byte prefixes, which for whole UTF-8 strings is the rune-list prefix test. -/
def findChild (children : List (String × FSNode)) (name : String) :
    Option (String × FSNode) :=
  children.find? (fun c => c.2.isDir && (c.1 == name || List.isPrefixOf (name ++ "@").data c.1.data))

/-- `filepath.Join` of one further component onto a non-trivial slash path. -/
def pathJoin (pa name : String) : String :=
  if pa = "" then name else pa ++ "/" ++ name

/-- The labelled loop of `searchPackagePathFromGoModCache` (src/main.go lines
51-66) over the remaining import path segments, carrying the current path and
the tree rooted there. `os.ReadDir` of a non-directory fails and the function
panics (`none`); a segment with no matching child returns the empty string
for the whole path; exhausting the segments returns the joined path. -/
def searchAux : List String → String → FSNode → Option String
  | [], pa, _ => some pa
  | _ :: _, _, .file => none
  | name :: rest, pa, .dir children =>
      match findChild children name with
      | some (cname, ct) => searchAux rest (pathJoin pa cname) ct
      | none => some ""

/-- The rune-level splitting underlying `strings.Split` on a one-rune
separator: an empty input gives one empty segment, a separator starts a new
segment, and any other rune extends the current segment. -/
def splitSlash : List Char → List (List Char)
  | [] => [[]]
  | c :: rest =>
      match splitSlash rest with
      | [] => [[c]]
      | cur :: done => if c = '/' then [] :: cur :: done else (c :: cur) :: done

/-- `strings.Split(importPath, string(os.PathSeparator))` with the slash
separator of the build platform. -/
def splitPath (s : String) : List String :=
  (splitSlash s.data).map (fun l => ⟨l⟩)

/-- `searchPackagePathFromGoModCache` (src/main.go lines 49-67), with the
module cache root (`goModCache()`, environment-derived) and the directory
tree rooted there passed explicitly. -/
def searchPackagePathFromGoModCache (cacheRoot : String) (rootNode : FSNode)
    (importPath : String) : Option String :=
  searchAux (splitPath importPath) cacheRoot rootNode

/-- The failure shape of the fallback search: descending through matching
children, some segment reaches a directory in which `findChild` matches no
child. -/
def chainFails : FSNode → List String → Prop
  | _, [] => False
  | .file, _ :: _ => False
  | .dir children, seg :: segs =>
      match findChild children seg with
      | none => True
      | some (_, ct) => chainFails ct segs

/-- The chain of child directory names the fallback search selects: one name
per import path segment, each being the first match of `findChild` at its
level. -/
def chainSel : FSNode → List String → List String → Prop
  | _, [], names => names = []
  | t, seg :: segs, names =>
      match t, names with
      | .file, _ => False
      | .dir _, [] => False
      | .dir children, n :: ns =>
          ∃ ct, findChild children seg = some (n, ct) ∧ chainSel ct segs ns

/-- C4: for every name that still has a first rune after stripping one
leading pointer marker, the visibility classifier returns normally and its
verdict is the uppercase test of exactly that rune (the test `u` standing
for the full-Unicode uppercase predicate). -/
theorem claim_C4 (u : Char → Bool) (s : String) (c : Char) (r : List Char)
    (h : stripStar s.data = c :: r) : isUpper0 u s = some (u c) := by
  unfold isUpper0
  unfold stripStar at h
  by_cases hs : s.data.head? = some '*'
  · rw [if_pos hs] at h ⊢
    rcases hd : s.data with _ | ⟨c0, rest⟩
    · rw [hd] at h; simp at h
    · rw [hd] at h
      simp only [List.tail_cons] at h
      subst h
      rfl
  · rw [if_neg hs] at h ⊢
    rw [h]
    simp

/-- C4 witness: the name `*Bar` is classified on the rune `B`. -/
theorem claim_C4_witness : isUpper0 Char.isUpper "*Bar" = some (Char.isUpper 'B') :=
  claim_C4 Char.isUpper "*Bar" 'B' ['a', 'r'] (by decide)

/-- C10: the visibility classifier returns a boolean exactly on the strings
that still contain at least one rune after stripping one leading pointer
marker; in particular on the empty string and on the one-rune string `*` the
rune indexing is out of range and the function panics instead of returning. -/
theorem claim_C10 (u : Char → Bool) (s : String) :
    ((isUpper0 u s).isSome ↔ stripStar s.data ≠ []) ∧
      isUpper0 u "" = none ∧ isUpper0 u "*" = none := by
  refine ⟨?_, rfl, rfl⟩
  unfold isUpper0 stripStar
  by_cases hs : s.data.head? = some '*'
  · rw [if_pos hs, if_pos hs]
    rcases hd : s.data with _ | ⟨c0, rest⟩
    · rw [hd] at hs; simp at hs
    · cases rest <;> simp
  · rw [if_neg hs, if_neg hs]
    cases hd : s.data <;> simp

/-- C10 witness: classifying the name `Bar` succeeds, as its stripped rune
sequence is non-empty. -/
theorem claim_C10_witness :
    ((isUpper0 Char.isUpper "Bar").isSome ↔ stripStar "Bar".data ≠ []) ∧
      isUpper0 Char.isUpper "" = none ∧ isUpper0 Char.isUpper "*" = none :=
  claim_C10 Char.isUpper "Bar"

/-- C9: the renderer is a total function of the syntax node (it is a Lean
function, whose recursion the kernel certifies terminating, so every finite
node yields a result, deterministically and with no side effects), and every
node kind outside the enumerated variants yields the explicit unsupported
marker carrying the debug form of the node. -/
theorem claim_C9 (t : Expr) (dbg : String) :
    (∃ s : String, formatType t = s) ∧
      formatType (.unsupported dbg) = "unsupported type " ++ dbg :=
  ⟨⟨formatType t, rfl⟩, rfl⟩

/-- C9 witness: the renderer at a concrete node and a concrete unrecognized
node kind. -/
theorem claim_C9_witness :
    (∃ s : String, formatType (.ident "x") = s) ∧
      formatType (.unsupported "ast.BadExpr") = "unsupported type " ++ "ast.BadExpr" :=
  claim_C9 (.ident "x") "ast.BadExpr"

/-- C7: an array-or-slice type node renders as the bracketed length (or
empty) before the rendered element; a slice expression renders as the base
followed by the bracketed bounds, each absent bound omitted and the second
colon present exactly when the three-index flag is set; in particular
`[4]int`, `x[:3]` and `x[1:2:3]`. -/
theorem claim_C7 :
    (∀ (len : Option Expr) (elt : Expr),
        formatType (.arrayType len elt) = "[" ++ formatTypeOpt len ++ "]" ++ formatType elt)
    ∧ (∀ (x : Expr) (lo hi : Option Expr) (s3 : Bool) (mx : Option Expr),
        formatType (.sliceExpr x lo hi s3 mx) =
          formatType x ++ "[" ++ formatTypeOpt lo ++ ":" ++ formatTypeOpt hi
            ++ (if s3 then ":" else "") ++ formatTypeOpt mx ++ "]")
    ∧ formatType (.arrayType (some (.basicLit "4")) (.ident "int")) = "[4]int"
    ∧ formatType (.sliceExpr (.ident "x") none (some (.basicLit "3")) false none) = "x[:3]"
    ∧ formatType (.sliceExpr (.ident "x") (some (.basicLit "1")) (some (.basicLit "2")) true
        (some (.basicLit "3"))) = "x[1:2:3]" :=
  ⟨fun _ _ => rfl, fun _ _ _ _ _ => rfl, rfl, rfl, rfl⟩

/-- C7 witness: the templates applied at the concrete array node of length 4
over int. -/
theorem claim_C7_witness :
    formatType (.arrayType (some (.basicLit "4")) (.ident "int")) =
      "[" ++ formatTypeOpt (some (.basicLit "4")) ++ "]" ++ formatType (.ident "int") :=
  claim_C7.1 (some (.basicLit "4")) (.ident "int")

/-- C6: rendering an absent result list yields empty text; a present list
yields a leading space, with the field-group text parenthesised exactly when
the list has more than one field or its single field carries a name; one
unnamed error renders as a bare trailing type, and a named pair renders
parenthesised. -/
theorem claim_C6 :
    formatFuncResults none = ""
    ∧ (∀ fs : List GoField,
        1 < fs.length ∨ (∃ names tp, fs = [(names, tp)] ∧ names ≠ []) →
          formatFuncResults (some fs) = " " ++ "(" ++ formatFields fs ++ ")")
    ∧ (∀ fs : List GoField,
        ¬(1 < fs.length ∨ (∃ names tp, fs = [(names, tp)] ∧ names ≠ [])) →
          formatFuncResults (some fs) = " " ++ formatFields fs)
    ∧ formatFuncResults (some [([], some (.ident "error"))]) = " error"
    ∧ formatFuncResults (some [(["n"], some (.ident "int")), (["err"], some (.ident "error"))]) =
        " (n int, err error)" := by
  refine ⟨rfl, ?_, ?_, by decide, by decide⟩
  · intro fs hfs
    rcases fs with _ | ⟨⟨names, tp⟩, rest1⟩
    · rcases hfs with h1 | ⟨names2, tp2, heq, hne⟩
      · simp at h1
      · exact absurd heq (by simp)
    · rcases rest1 with _ | ⟨f2, rest⟩
      · have hne : names ≠ [] := by
          rcases hfs with h1 | ⟨names2, tp2, heq, hne⟩
          · simp at h1
          · simp only [List.cons.injEq, Prod.mk.injEq, and_true] at heq
            rw [heq.1]
            exact hne
        have h0 : 0 < names.length := List.length_pos.mpr hne
        simp [formatFuncResults, h0]
      · have h1 : 1 < rest.length + 1 + 1 := by omega
        simp [formatFuncResults, h1]
  · intro fs hfs
    push_neg at hfs
    obtain ⟨h1, h2⟩ := hfs
    rcases fs with _ | ⟨⟨names, tp⟩, rest1⟩
    · decide
    · rcases rest1 with _ | ⟨f2, rest⟩
      · have hne : names = [] := h2 names tp rfl
        subst hne
        simp [formatFuncResults, String.append_empty]
      · simp only [List.length_cons] at h1
        omega

/-- C6 witness: the parenthesised template applied at the two-field result
list of `(n int, err error)`. -/
theorem claim_C6_witness :
    formatFuncResults (some [(["n"], some (.ident "int")), (["err"], some (.ident "error"))]) =
      " " ++ "(" ++ formatFields [(["n"], some (.ident "int")), (["err"], some (.ident "error"))]
        ++ ")" :=
  claim_C6.2.1 _ (Or.inl (by decide))

/-- C2 is refuted by the code: an exported method whose receiver field has no
bound name renders to the empty string, which `printGoFileExport` appends to
the collection without the emptiness check the general-declaration branch
has; a file containing only such a method therefore emits a file-name header,
an empty declaration line, and the blank separator, instead of nothing. This
theorem evaluates the exporter at that failing input. -/
theorem claim_C2_eval :
    printGoFileExport Char.isUpper "a.go"
        [.funcDecl ⟨some [([], some (.ident "T"))], "Foo", none, [], none⟩] =
      some ["// a.go:", "", ""] := by decide

/-- C3: a method whose receiver is exactly one field with exactly one name
is collected iff the classifier accepts both the rendered receiver type text
and the method name (each verdict `some`, so neither classification panics),
and its rendering carries the parenthesised receiver before the common
function tail. -/
theorem claim_C3 (u : Char → Bool) (d : FuncDecl) (rn : String) (ty : Expr) (tb nb : Bool)
    (h1 : d.recv = some [([rn], some ty)])
    (h2 : isUpper0 u (formatType ty) = some tb)
    (h3 : isUpper0 u d.name = some nb) :
    processDecl u (.funcDecl d) = some (if tb && nb then [formatFuncDecl d] else [])
    ∧ formatFuncDecl d =
        "func " ++ "(" ++ rn ++ " " ++ formatType ty ++ ") " ++ funcDeclTail d := by
  obtain ⟨rv, nm, tps, ps, rs⟩ := d
  change rv = some [([rn], some ty)] at h1
  change isUpper0 u nm = some nb at h3
  subst h1
  have he : exported u ⟨some [([rn], some ty)], nm, tps, ps, rs⟩ = some (tb && nb) := by
    simp only [exported, formatTypeOpt]
    rw [h2]
    cases tb <;> simp [h3]
  constructor
  · simp only [processDecl]
    rw [he]
  · simp [formatFuncDecl, formatTypeOpt]

/-- C3 witness: the method `Foo` on receiver `r *Bar` is collected and
rendered with its receiver. -/
theorem claim_C3_witness :
    processDecl Char.isUpper
        (.funcDecl ⟨some [(["r"], some (.star (.ident "Bar")))], "Foo", none, [], none⟩) =
      some (if true && true then
        [formatFuncDecl ⟨some [(["r"], some (.star (.ident "Bar")))], "Foo", none, [], none⟩]
        else [])
    ∧ formatFuncDecl ⟨some [(["r"], some (.star (.ident "Bar")))], "Foo", none, [], none⟩ =
        "func " ++ "(" ++ "r" ++ " " ++ formatType (.star (.ident "Bar")) ++ ") "
          ++ funcDeclTail ⟨some [(["r"], some (.star (.ident "Bar")))], "Foo", none, [], none⟩ :=
  claim_C3 Char.isUpper _ "r" (.star (.ident "Bar")) true true rfl (by decide) (by decide)

/-- C8: the emitted line of a var/const group for the eligible name at index
`i` carries an initializer clause with the rendered i-th initializer iff the
group supplies more than `i` initializer expressions, and otherwise consists
of only the tag word, the name and the shared type text; the group loop emits
exactly this line for each eligible name. -/
theorem claim_C8 (u : Char → Bool) (key name typ : String) (values : List Expr) (i : Nat)
    (rest : List String) :
    (values.length > i →
        valueLine key name typ values i =
          key ++ " " ++ name ++ " " ++ typ ++ "= " ++ formatTypeOpt (values.get? i))
    ∧ (values.length ≤ i → valueLine key name typ values i = key ++ " " ++ name ++ " " ++ typ)
    ∧ (isUpper0 u name = some true →
        valueSpecAux u key typ values i (name :: rest) =
          (valueSpecAux u key typ values (i + 1) rest).map
            (fun tail => valueLine key name typ values i :: tail)) := by
  refine ⟨?_, ?_, ?_⟩
  · intro h
    simp [valueLine, h]
  · intro h
    have h2 : ¬ values.length > i := by omega
    simp [valueLine, h2]
  · intro h
    simp only [valueSpecAux]
    rw [h]
    cases valueSpecAux u key typ values (i + 1) rest <;> simp

/-- C8 witness: in a group with a single initializer, the eligible name at
index 0 gets the initializer clause and the eligible name at index 1 renders
without one. -/
theorem claim_C8_witness :
    valueLine "var" "X" "" [Expr.basicLit "1"] 0 =
      "var" ++ " " ++ "X" ++ " " ++ "" ++ "= " ++ formatTypeOpt ([Expr.basicLit "1"].get? 0)
    ∧ valueLine "var" "Y" "" [Expr.basicLit "1"] 1 = "var" ++ " " ++ "Y" ++ " " ++ "" :=
  ⟨(claim_C8 Char.isUpper "var" "X" "" [Expr.basicLit "1"] 0 []).1 (by decide),
   (claim_C8 Char.isUpper "var" "Y" "" [Expr.basicLit "1"] 1 []).2.1 (by decide)⟩

/-- A non-empty successful result of the fallback search loop is the full
chain of matched child names folded onto the starting path. -/
theorem searchAux_success : ∀ (segs : List String) (pa : String) (t : FSNode) (r : String),
    searchAux segs pa t = some r → r ≠ "" →
    ∃ names, chainSel t segs names ∧ r = names.foldl pathJoin pa := by
  intro segs
  induction segs with
  | nil =>
      intro pa t r h hr
      simp only [searchAux, Option.some.injEq] at h
      exact ⟨[], rfl, h.symm⟩
  | cons seg rest ih =>
      intro pa t r h hr
      cases t with
      | file => simp [searchAux] at h
      | dir children =>
          simp only [searchAux] at h
          cases hf : findChild children seg with
          | none =>
              rw [hf] at h
              simp at h
              exact absurd h.symm hr
          | some pair =>
              obtain ⟨cname, ct⟩ := pair
              rw [hf] at h
              obtain ⟨names, hc, hr2⟩ := ih (pathJoin pa cname) ct r h hr
              exact ⟨cname :: names, ⟨ct, hf, hc⟩, hr2⟩

/-- Conversely, along any full chain of matched child names the fallback
search loop succeeds with the folded path. -/
theorem searchAux_of_chainSel : ∀ (segs names : List String) (pa : String) (t : FSNode),
    chainSel t segs names → searchAux segs pa t = some (names.foldl pathJoin pa) := by
  intro segs
  induction segs with
  | nil =>
      intro names pa t hc
      have hn : names = [] := hc
      subst hn
      rfl
  | cons seg rest ih =>
      intro names pa t hc
      cases t with
      | file => exact hc.elim
      | dir children =>
          cases names with
          | nil => exact hc.elim
          | cons n ns =>
              obtain ⟨ct, hf, hc2⟩ := hc
              simp only [searchAux]
              rw [hf]
              exact ih ns (pathJoin pa n) ct hc2

/-- When some segment reaches a directory with no matching child, the search
loop returns the empty string for the whole path. -/
theorem searchAux_of_chainFails : ∀ (segs : List String) (pa : String) (t : FSNode),
    chainFails t segs → searchAux segs pa t = some "" := by
  intro segs
  induction segs with
  | nil =>
      intro pa t hc
      cases t <;> exact hc.elim
  | cons seg rest ih =>
      intro pa t hc
      cases t with
      | file => exact hc.elim
      | dir children =>
          simp only [chainFails] at hc
          simp only [searchAux]
          cases hf : findChild children seg with
          | none => rfl
          | some pair =>
              obtain ⟨cname, ct⟩ := pair
              rw [hf] at hc
              exact ih (pathJoin pa cname) ct hc

/-- C5: the fallback resolver splits the import path on the separator and
descends segment by segment through the first matching child of each level;
a returned non-empty path is the cache root joined with every matched child
name for the whole segment list, along any full match chain it returns
exactly that joined path, and when any segment matches no child it returns
the empty string for the whole path instead of a partial prefix. -/
theorem claim_C5 (cacheRoot : String) (rootNode : FSNode) (importPath : String) :
    (∀ r, searchPackagePathFromGoModCache cacheRoot rootNode importPath = some r → r ≠ "" →
        ∃ names, chainSel rootNode (splitPath importPath) names ∧
          r = names.foldl pathJoin cacheRoot)
    ∧ (∀ names, chainSel rootNode (splitPath importPath) names →
        searchPackagePathFromGoModCache cacheRoot rootNode importPath =
          some (names.foldl pathJoin cacheRoot))
    ∧ (chainFails rootNode (splitPath importPath) →
        searchPackagePathFromGoModCache cacheRoot rootNode importPath = some "") :=
  ⟨fun r h hr => searchAux_success (splitPath importPath) cacheRoot rootNode r h hr,
   fun names hc => searchAux_of_chainSel (splitPath importPath) names cacheRoot rootNode hc,
   fun hc => searchAux_of_chainFails (splitPath importPath) cacheRoot rootNode hc⟩

/-- C5 witness: with cache root `/cache`, import path `a/b`, and the child
`b@1.2.3` under `/cache/a`, resolution returns `/cache/a/b@1.2.3`; with no
child matching `b` under `/cache/a`, resolution returns the empty string. -/
theorem claim_C5_witness :
    searchPackagePathFromGoModCache "/cache"
        (.dir [("a", .dir [("b@1.2.3", .dir [])])]) "a/b" =
      some ((["a", "b@1.2.3"] : List String).foldl pathJoin "/cache")
    ∧ (["a", "b@1.2.3"] : List String).foldl pathJoin "/cache" = "/cache/a/b@1.2.3"
    ∧ searchPackagePathFromGoModCache "/cache"
        (.dir [("a", .dir [("c", .dir [])])]) "a/b" = some "" :=
  ⟨(claim_C5 "/cache" (.dir [("a", .dir [("b@1.2.3", .dir [])])]) "a/b").2.1 ["a", "b@1.2.3"]
      ⟨.dir [("b@1.2.3", .dir [])], rfl, .dir [], rfl, rfl⟩,
   by decide,
   (claim_C5 "/cache" (.dir [("a", .dir [("c", .dir [])])]) "a/b").2.2 trivial⟩

/-- The collection loop of the exporter distributes over list append: a
panic on either side aborts, otherwise the collected lines concatenate. -/
theorem collectRes_append (u : Char → Bool) (xs ys : List Decl) :
    collectRes u (xs ++ ys) =
      (collectRes u xs).bind (fun a => (collectRes u ys).map (fun b => a ++ b)) := by
  induction xs with
  | nil =>
      simp only [List.nil_append, collectRes]
      cases collectRes u ys <;> simp
  | cons d rest ih =>
      simp only [List.cons_append, collectRes, List.append_eq]
      rw [ih]
      cases processDecl u d <;> cases collectRes u rest <;> cases collectRes u ys <;>
        simp [List.append_assoc]

/-- C1 amended: a top-level method whose single receiver field carries more
than one name yields, when the exported check accepts it, the
strange-receiver-field diagnostic line in place of the normal rendering
while the declarations before and after it are still collected; but a
receiver field list that does not contain exactly one field makes the
exported check panic, aborting the run with no diagnostic. -/
theorem claim_C1 (u : Char → Bool) (pre post : List Decl) (d : FuncDecl) :
    (∀ f : GoField, d.recv = some [f] → 2 ≤ f.1.length → exported u d = some true →
        collectRes u (pre ++ Decl.funcDecl d :: post) =
          (collectRes u pre).bind (fun a => (collectRes u post).map
            (fun b => a ++ ("strange receiver field for " ++ d.name ++ ": " ++ debugField f) :: b)))
    ∧ (∀ l : List GoField, d.recv = some l → l.length ≠ 1 →
        collectRes u (pre ++ Decl.funcDecl d :: post) = none) := by
  constructor
  · intro f h1 h2 he
    have hfmt : formatFuncDecl d =
        "strange receiver field for " ++ d.name ++ ": " ++ debugField f := by
      obtain ⟨rv, nm, tps, ps, rs⟩ := d
      change rv = some [f] at h1
      subst h1
      obtain ⟨names, tp⟩ := f
      match names, h2 with
      | n1 :: n2 :: ns, _ => rfl
    have hpd : processDecl u (.funcDecl d) = some [formatFuncDecl d] := by
      simp only [processDecl]
      rw [he]
      simp
    have hcons : collectRes u (Decl.funcDecl d :: post) =
        (collectRes u post).map (fun b => formatFuncDecl d :: b) := by
      simp only [collectRes]
      rw [hpd]
      cases collectRes u post <;> simp
    rw [collectRes_append, hcons, hfmt]
    cases collectRes u pre <;> cases collectRes u post <;> simp
  · intro l h1 h2
    have he : exported u d = none := by
      obtain ⟨rv, nm, tps, ps, rs⟩ := d
      change rv = some l at h1
      subst h1
      match l, h2 with
      | [], _ => rfl
      | [x], h2 => exact absurd rfl h2
      | x :: y :: r, _ => rfl
    have hpd : processDecl u (.funcDecl d) = none := by
      simp only [processDecl]
      rw [he]
    have hcons : collectRes u (Decl.funcDecl d :: post) = none := by
      simp only [collectRes]
      rw [hpd]
    rw [collectRes_append, hcons]
    cases collectRes u pre <;> simp

/-- C1 counterexample, refuting the claim at two explicit inputs. First, a
function declaration whose receiver field list has two fields makes the run
panic inside the exported check: no diagnostic line is produced and the
following exported type declaration of the same file is not processed.
Second, a method whose single receiver field binds two names but whose name
`foo` fails the exported check is skipped silently: the file produces no
diagnostic line at all. -/
theorem claim_C1_counterexample :
    printGoFileExport Char.isUpper "a.go"
        [Decl.funcDecl ⟨some [(["a"], some (.ident "A")), (["b"], some (.ident "B"))], "Foo",
            none, [], none⟩,
          Decl.genDecl ⟨.typeTok, [.typeSpec "Bar" (.ident "int")]⟩] = none
    ∧ printGoFileExport Char.isUpper "b.go"
        [Decl.funcDecl ⟨some [(["a", "b"], some (.ident "T"))], "foo", none, [], none⟩] =
      some [] := by
  refine ⟨by decide, by decide⟩

/-- C1 witness: an exported method whose single receiver field binds two
names contributes exactly the strange-receiver-field diagnostic line. -/
theorem claim_C1_witness :
    collectRes Char.isUpper
        [Decl.funcDecl ⟨some [(["a", "b"], some (.ident "T"))], "Foo", none, [], none⟩] =
      (collectRes Char.isUpper []).bind (fun a => (collectRes Char.isUpper []).map
        (fun b => a ++ ("strange receiver field for " ++ "Foo" ++ ": "
          ++ debugField (["a", "b"], some (.ident "T"))) :: b)) :=
  (claim_C1 Char.isUpper [] []
      ⟨some [(["a", "b"], some (.ident "T"))], "Foo", none, [], none⟩).1
    (["a", "b"], some (.ident "T")) rfl (by decide) (by decide)
